import Mathlib

/-!
Verification of the exam-preparation app's quiz-session core: a shallow
embedding in Lean 4 of the data model (`src/types.ts`), the session builder
(`src/App.tsx`, `handleStartPractice`), the session-runner state machine
(`src/components/PracticeSession.tsx`), the dashboard aggregator
(`Dashboard`), the AI-service boundary (`src/services/geminiService.ts`)
and the persisted-session store (`src/services/storageService.ts`),
together with theorems settling the specification's claims about them.

Modelling conventions:
* JavaScript numbers that hold integers are embedded as `Nat` or `Int`
  (all arithmetic relevant to the claims is exact in doubles).
* `Array.prototype.sort(cmp)` is embedded as a stable insertion sort
  (ECMAScript 2019 requires `sort` to be stable; for a consistent
  comparator every stable sort computes the same list).  When the
  comparator itself draws randomness (`() => Math.random() - 0.5`) the
  sort is embedded as the same insertion sort consuming an explicit
  stream of fair coins, one per comparison.
* External calls (the Gemini collaborator, `Math.random`, `Date.now`,
  `localStorage`) are oracles passed in as explicit parameters.
-/

/-- Subjects: the fixed string enumeration `Subject` of `src/types.ts`. -/
inductive Subject where
  | POLITY
  | ECONOMY
  | GOVERNANCE
  | GENERAL_AWARENESS
deriving DecidableEq, Repr

/-- The string value of a `Subject` enum member. -/
def Subject.val : Subject → String
  | .POLITY => "Polity"
  | .ECONOMY => "Economy"
  | .GOVERNANCE => "Governance"
  | .GENERAL_AWARENESS => "General Awareness"

/-- Difficulty: the fixed string enumeration `Difficulty` of `src/types.ts`. -/
inductive Difficulty where
  | EASY
  | MEDIUM
  | HARD
deriving DecidableEq, Repr

/-- A question of the bank (`Question` in `src/types.ts`).
`correctAnswerIndex` is an `Int` because it is an unvalidated JavaScript
number at the ingestion boundary (see `parseMCQsFromText`). -/
structure Question where
  id : String
  text : String
  options : List String
  correctAnswerIndex : Int
  explanation : String
  subject : Subject
  difficulty : Difficulty
  monthYear : Option String
  tags : List String
  documentId : Option String
deriving DecidableEq, Repr

/-- One recorded answer event (`Attempt` in `src/types.ts`). -/
structure Attempt where
  questionId : String
  userAnswerIndex : Int
  isCorrect : Bool
  timeTaken : Nat
  timestamp : Nat
deriving DecidableEq, Repr

/-- Session modes (`QuizSession.mode` in `src/types.ts`). -/
inductive Mode where
  | STANDARD
  | ADAPTIVE
  | EXAM
  | CUSTOM
deriving DecidableEq, Repr

/-- A quiz session (`QuizSession` in `src/types.ts`). -/
structure QuizSession where
  id : String
  mode : Mode
  questions : List Question
  currentQuestionIndex : Nat
  attempts : List Attempt
  startTime : Nat
  timeLimit : Option Nat
  isComplete : Bool
deriving DecidableEq, Repr

/-- The persisted aggregate (`AppState` in `src/types.ts`); the document
log is not needed by any claim and is omitted. -/
structure AppState where
  questions : List Question
  attempts : List Attempt
deriving DecidableEq, Repr

/-! ## Array.prototype.sort models -/

/-- Insert `x` into `l` in front of the first element `y` with
`cmp x y < 0`.  Building a list by repeated insertion with this function
is a stable insertion sort for the comparator `cmp`. -/
def insertCmp (cmp : α → α → Int) (x : α) : List α → List α
  | [] => [x]
  | y :: ys => if cmp x y < 0 then x :: y :: ys else y :: insertCmp cmp x ys

/-- Model of `arr.sort(cmp)` for a deterministic, consistent comparator:
stable insertion sort (ECMAScript requires `sort` to be stable, and for a
consistent comparator all stable sorts agree). -/
def sortJS (cmp : α → α → Int) (l : List α) : List α :=
  l.foldl (fun acc x => insertCmp cmp x acc) []

/-- Insert `x` into `l`, deciding each comparison by the next coin of the
stream `coins` (coin index `k` is the number of comparisons made so far).
A `true` coin means the random comparator returned a negative value, i.e.
`x` is placed in front of the element it was compared with.  Returns the
new list and the updated coin index. -/
def insertRand (coins : Nat → Bool) (x : α) : List α → Nat → List α × Nat
  | [], k => ([x], k)
  | y :: ys, k =>
      if coins k then (x :: y :: ys, k + 1)
      else
        let r := insertRand coins x ys (k + 1)
        (y :: r.1, r.2)

/-- Model of the source's comparator-trick shuffle
`arr.sort(() => Math.random() - 0.5)` (also `0.5 - Math.random()`):
insertion sort in which every comparison consumes one fair coin from
`coins`.  Engines use an insertion sort for short arrays, and each call
of the random comparator is an independent draw, so the outcome is a
deterministic function of the coin stream. -/
def shuffleJS (coins : Nat → Bool) (l : List α) : List α :=
  (l.foldl (fun acc x => (insertRand coins x acc.1 acc.2)) (([] : List α), 0)).1

/-! ## Session Builder (`handleStartPractice` in `src/App.tsx`) -/

/-- Question identifiers having at least one incorrect attempt:
`new Set(state.attempts.filter(a => !a.isCorrect).map(a => a.questionId))`. -/
def incorrectIds (attempts : List Attempt) : List String :=
  (attempts.filter (fun a => !a.isCorrect)).map (fun a => a.questionId)

/-- Whether a question is in the incorrect-attempt set (`incorrectIds.has(q.id)`). -/
def missedBy (attempts : List Attempt) (q : Question) : Bool :=
  (incorrectIds attempts).contains q.id

/-- The ADAPTIVE comparator `(a, b) => bW - aW` where a question's weight
is `1` when its id is in the incorrect set and `0` otherwise. -/
def adaptiveCmp (attempts : List Attempt) (a b : Question) : Int :=
  (if missedBy attempts b then 1 else 0) - (if missedBy attempts a then 1 else 0)

/-- The modes `handleStartPractice` accepts (its parameter type is
`'STANDARD' | 'ADAPTIVE' | 'EXAM'`). -/
inductive PracticeMode where
  | STANDARD
  | ADAPTIVE
  | EXAM
deriving DecidableEq, Repr

/-- The session mode stored for a practice mode. -/
def PracticeMode.toMode : PracticeMode → Mode
  | .STANDARD => .STANDARD
  | .ADAPTIVE => .ADAPTIVE
  | .EXAM => .EXAM

/-- `handleStartPractice` of `src/App.tsx`: returns `none` on an empty
bank (the alert path); otherwise orders a copy of the bank — ADAPTIVE
sorts incorrect-attempted questions first, EXAM and STANDARD shuffle with
the random comparator — takes the first 10 questions, and sets the time
limit to `120 * 60` seconds for EXAM and none otherwise.  `coins` stands
for the `Math.random` draws, `sid` for the generated uuid and `now` for
`Date.now()`. -/
def handleStartPractice (mode : PracticeMode) (state : AppState)
    (coins : Nat → Bool) (sid : String) (now : Nat) : Option QuizSession :=
  if state.questions.length = 0 then none
  else
    let selectedQuestions :=
      match mode with
      | .ADAPTIVE => sortJS (adaptiveCmp state.attempts) state.questions
      | .EXAM => shuffleJS coins state.questions
      | .STANDARD => shuffleJS coins state.questions
    let timeLimit : Option Nat :=
      match mode with
      | .EXAM => some (120 * 60)
      | _ => none
    some {
      id := sid
      mode := mode.toMode
      questions := selectedQuestions.take 10
      currentQuestionIndex := 0
      attempts := []
      startTime := now
      timeLimit := timeLimit
      isComplete := false
    }

/-! ## Dashboard Aggregator (`Dashboard` in `src/App.tsx`) -/

/-- Insertion-ordered distinct attempted question ids:
`new Set(state.attempts.map(a => a.questionId))`. -/
def uniqueAttemptedIds (attempts : List Attempt) : List String :=
  ((attempts.map (fun a => a.questionId))).eraseDups

/-- Whether the most recent attempt recorded for `id` was correct:
`attemptsForQ[attemptsForQ.length - 1].isCorrect` (`false` when no
attempt exists, which cannot happen for ids drawn from the history). -/
def lastAttemptCorrect (attempts : List Attempt) (id : String) : Bool :=
  match (attempts.filter (fun a => a.questionId = id)).getLast? with
  | some a => a.isCorrect
  | none => false

/-- The dashboard's `Mastered` pie count (`uniqueCorrect`): distinct
attempted ids whose last attempt was correct. -/
def masteredCount (attempts : List Attempt) : Nat :=
  (uniqueAttemptedIds attempts).countP (fun id => lastAttemptCorrect attempts id)

/-- The dashboard's `Needs Review` pie count (`uniqueWrong`): distinct
attempted ids whose last attempt was incorrect. -/
def needsReviewCount (attempts : List Attempt) : Nat :=
  (uniqueAttemptedIds attempts).countP (fun id => !lastAttemptCorrect attempts id)

/-- The dashboard's `Unseen` pie count:
`Math.max(0, totalQuestions - uniqueAttemptedIds.size)`. -/
def unattemptedCount (questions : List Question) (attempts : List Attempt) : Int :=
  max 0 ((questions.length : Int) - ((uniqueAttemptedIds attempts).length : Int))

/-- Exact model of `Math.round((s / c) * 100)` for naturals with `c > 0`:
round-half-up of the rational `100 * s / c` (for the chunk sizes that
occur, `1 ≤ c ≤ 5`, the double computation is exact enough that it always
agrees with exact rational rounding, and no half-way case arises). -/
def roundPct (s c : Nat) : Nat :=
  (200 * s + c) / (2 * c)

/-- The accuracy-trend loop of the dashboard
(`state.attempts.forEach((a, index) => ...)`): walks the history carrying
the running index `idx`, the full history length `total`, the chunk's
correct count `s` and the chunk's size `c`; pushes a point
`(index + 1, Math.round((chunkSum / chunkCount) * 100))` and resets the
chunk whenever the chunk reaches size 5 or the last attempt is reached. -/
def trendLoop : List Attempt → Nat → Nat → Nat → Nat → List (Nat × Nat)
  | [], _, _, _, _ => []
  | a :: rest, idx, total, s, c =>
      if c + 1 = 5 ∨ idx = total - 1 then
        (idx + 1, roundPct (s + (if a.isCorrect then 1 else 0)) (c + 1)) ::
          trendLoop rest (idx + 1) total 0 0
      else
        trendLoop rest (idx + 1) total (s + (if a.isCorrect then 1 else 0)) (c + 1)

/-- The dashboard's `trendData`. -/
def trendData (attempts : List Attempt) : List (Nat × Nat) :=
  trendLoop attempts 0 attempts.length 0 0

/-- Correct attempts in a chunk. -/
def countCorrect (l : List Attempt) : Nat :=
  l.countP (fun a => a.isCorrect)

/-- Modelled from the spec's words, for comparison with `trendData` (the
claim under test): partition the history into chunks of 5, the final
chunk possibly shorter, and map each chunk to the point
`(ordinal position of the chunk's last attempt,
round(100 * correctInChunk / 5))` — the divisor is the fixed chunk size
5 even for the final, shorter chunk. -/
def specTrendClaimAux (pos : Nat) : List Attempt → List (Nat × Nat)
  | [] => []
  | [a] => [(pos + 1, roundPct (countCorrect [a]) 5)]
  | [a, b] => [(pos + 2, roundPct (countCorrect [a, b]) 5)]
  | [a, b, c] => [(pos + 3, roundPct (countCorrect [a, b, c]) 5)]
  | [a, b, c, d] => [(pos + 4, roundPct (countCorrect [a, b, c, d]) 5)]
  | a :: b :: c :: d :: e :: rest =>
      (pos + 5, roundPct (countCorrect [a, b, c, d, e]) 5) ::
        specTrendClaimAux (pos + 5) rest

/-- The claim's trend computation (see `specTrendClaimAux`). -/
def specTrendClaim (attempts : List Attempt) : List (Nat × Nat) :=
  specTrendClaimAux 0 attempts

/-- The amended trend computation: as `specTrendClaimAux`, but each
chunk's accuracy divides by the chunk's actual length — 5 for full
chunks, the remaining length for the final, shorter chunk. -/
def specTrendAmendAux (pos : Nat) : List Attempt → List (Nat × Nat)
  | [] => []
  | [a] => [(pos + 1, roundPct (countCorrect [a]) 1)]
  | [a, b] => [(pos + 2, roundPct (countCorrect [a, b]) 2)]
  | [a, b, c] => [(pos + 3, roundPct (countCorrect [a, b, c]) 3)]
  | [a, b, c, d] => [(pos + 4, roundPct (countCorrect [a, b, c, d]) 4)]
  | a :: b :: c :: d :: e :: rest =>
      (pos + 5, roundPct (countCorrect [a, b, c, d, e]) 5) ::
        specTrendAmendAux (pos + 5) rest

/-- The amended trend computation (see `specTrendAmendAux`). -/
def specTrendAmend (attempts : List Attempt) : List (Nat × Nat) :=
  specTrendAmendAux 0 attempts

/-! ## Session Runner (`PracticeSession` in `src/components/PracticeSession.tsx`) -/

/-- The runner's mutable React state: `currentIndex`, `selectedOption`,
`isChecked`, `attempts`, the per-question `startTime` and the countdown
`timeLeft` (initialised from `session.timeLimit`). -/
structure RunnerState where
  currentIndex : Nat
  selectedOption : Option Nat
  isChecked : Bool
  attempts : List Attempt
  startTime : Nat
  timeLeft : Option Nat
deriving DecidableEq, Repr

/-- Result of one runner step: still running, or completed with the
attempt list handed to `onComplete`. -/
inductive RunnerOutcome where
  | running (s : RunnerState)
  | completed (attempts : List Attempt)
deriving DecidableEq, Repr

/-- The events that drive the runner: an option click, a `Check Answer`
click (`now` is `Date.now()` at the click), a `Next` click (`now` is the
`Date.now()` of the per-question reset effect), and one second of
wall-clock time elapsing on the countdown. -/
inductive Event where
  | select (i : Nat)
  | check (now : Nat)
  | next (now : Nat)
  | tick
deriving DecidableEq, Repr

/-- `handleOptionSelect`: ignored after checking outside EXAM mode. -/
def handleOptionSelect (session : QuizSession) (s : RunnerState) (i : Nat) : RunnerState :=
  if s.isChecked && !(session.mode = Mode.EXAM) then s
  else { s with selectedOption := some i }

/-- `handleCheck`: a no-op without a selection; otherwise marks the
question checked and records an `Attempt` for the current question,
first removing any prior attempt with the same question id
(`prev.filter(a => a.questionId !== currentQuestion.id)` then append).
The fire-and-forget tutoring call on a wrong answer touches no runner
state and is not modelled.  The source indexes
`session.questions[currentIndex]` unconditionally; the runner keeps the
index in range, and the model leaves the state unchanged out of range. -/
def handleCheck (session : QuizSession) (s : RunnerState) (now : Nat) : RunnerState :=
  match s.selectedOption with
  | none => s
  | some sel =>
      if h : s.currentIndex < session.questions.length then
        let q := session.questions.get ⟨s.currentIndex, h⟩
        let newAttempt : Attempt := {
          questionId := q.id
          userAnswerIndex := (sel : Int)
          isCorrect := ((sel : Int) = q.correctAnswerIndex)
          timeTaken := (now - s.startTime) / 1000
          timestamp := now
        }
        { s with
          isChecked := true
          attempts := (s.attempts.filter (fun a => a.questionId ≠ q.id)) ++ [newAttempt] }
      else s

/-- `handleNext` plus the reset effect that runs when `currentIndex`
changes: advance and clear the per-question sub-state, or complete with
the recorded attempts when the current question is the last. -/
def handleNext (session : QuizSession) (s : RunnerState) (now : Nat) : RunnerOutcome :=
  if s.currentIndex < session.questions.length - 1 then
    .running { s with
      currentIndex := s.currentIndex + 1
      selectedOption := none
      isChecked := false
      startTime := now }
  else
    .completed s.attempts

/-- One second elapsing on the countdown.  Without a time limit nothing
happens.  Otherwise the interval callback sets
`timeLeft = prev > 0 ? prev - 1 : 0` and the timer effect re-runs: once
`timeLeft` has reached zero it calls `onComplete(attempts)`
unconditionally. -/
def tickSecond (s : RunnerState) : RunnerOutcome :=
  match s.timeLeft with
  | none => .running s
  | some t =>
      let t1 := t - 1
      if t1 = 0 then .completed s.attempts
      else .running { s with timeLeft := some t1 }

/-- One step of the runner state machine. -/
def stepRunner (session : QuizSession) (s : RunnerState) : Event → RunnerOutcome
  | .select i => .running (handleOptionSelect session s i)
  | .check now => .running (handleCheck session s now)
  | .next now => handleNext session s now
  | .tick => tickSecond s

/-- Run a list of events from a state;  events after completion are
discarded (the interval is cleared and the component unmounts). -/
def runEvents (session : QuizSession) (s : RunnerState) : List Event → RunnerOutcome
  | [] => .running s
  | e :: es =>
      match stepRunner session s e with
      | .running s1 => runEvents session s1 es
      | .completed atts => .completed atts

/-- The runner's initial state for a session mounted at time `now`. -/
def initRunner (session : QuizSession) (now : Nat) : RunnerState :=
  { currentIndex := 0
    selectedOption := none
    isChecked := false
    attempts := []
    startTime := now
    timeLeft := session.timeLimit }

/-- The attempts visible in an outcome. -/
def RunnerOutcome.attemptList : RunnerOutcome → List Attempt
  | .running s => s.attempts
  | .completed atts => atts

/-! ## AI-service boundary (`src/services/geminiService.ts`) -/

/-- One already-JSON-parsed element of the model's response array in
`parseMCQsFromText`.  `none` in a field models a missing/falsy value
(`q.text`), a non-array (`q.options`, `q.tags`) or a non-number
(`q.correctAnswerIndex`). -/
structure RawMCQ where
  text : Option String
  options : Option (List String)
  correctAnswerIndex : Option Int
  explanation : Option String
  subject : Option String
  difficulty : Option String
  tags : Option (List String)
deriving DecidableEq, Repr

/-- A parsed question before an id is attached (`Omit<Question, 'id'>`). -/
structure ParsedQuestion where
  text : String
  options : List String
  correctAnswerIndex : Int
  explanation : String
  subject : Subject
  difficulty : Difficulty
  tags : List String
  monthYear : String
deriving DecidableEq, Repr

/-- `Object.values(Subject).includes(q.subject) ? q.subject : Subject.GENERAL_AWARENESS`. -/
def subjectOfString (s : Option String) : Subject :=
  if s = some "Polity" then .POLITY
  else if s = some "Economy" then .ECONOMY
  else if s = some "Governance" then .GOVERNANCE
  else .GENERAL_AWARENESS

/-- `Object.values(Difficulty).includes(q.difficulty) ? q.difficulty : Difficulty.MEDIUM`. -/
def difficultyOfString (s : Option String) : Difficulty :=
  if s = some "Easy" then .EASY
  else if s = some "Hard" then .HARD
  else .MEDIUM

/-- The per-item mapping of `parseMCQsFromText` (the "Map and validate
each question" step of the latest revision): defaults for missing or
mistyped fields — in particular `correctAnswerIndex` is only checked to
be a number, `typeof q.correctAnswerIndex === 'number'
? q.correctAnswerIndex : 0`, with no bounds check against `options`. -/
def mapRawMCQ (monthYear : String) (q : RawMCQ) : ParsedQuestion :=
  { text := q.text.getD ""
    options := q.options.getD []
    correctAnswerIndex := q.correctAnswerIndex.getD 0
    explanation := q.explanation.getD ""
    subject := subjectOfString q.subject
    difficulty := difficultyOfString q.difficulty
    tags := q.tags.getD []
    monthYear := monthYear }

/-- The pure tail of `parseMCQsFromText` (latest revision,
`src/services/geminiService.ts`): map each response item through
`mapRawMCQ`, then keep items with non-empty text and at least two
options (`.filter((q) => q.text && q.options.length >= 2)`).  The
response array itself and the current date are parameters (network and
clock oracles). -/
def parseMCQsFromText (monthYear : String) (json : List RawMCQ) : List ParsedQuestion :=
  (json.map (mapRawMCQ monthYear)).filter
    (fun q => q.text ≠ "" && q.options.length ≥ 2)

/-- Subject-filtered candidate pool of `curatePracticeSet`:
`subject !== 'All'` narrows the bank to that subject. -/
def candidatePool (allQuestions : List Question) (subject : String) : List Question :=
  if subject ≠ "All" then
    allQuestions.filter (fun q => q.subject.val = subject)
  else allQuestions

/-- `curatePracticeSet` of `src/services/geminiService.ts`.  `hasKey`
models `getApiKey()` being non-empty; `coinsA`/`coinsB` are the
`Math.random` draws of the two comparator shuffles; `aiSelected` is the
AI collaborator's parsed id array (`none` models a thrown error, and an
empty array triggers the same fallback).  Without a key: shuffle the
subject-filtered bank, take `count`, return ids.  With a key: when the
candidate pool is not larger than `count`, return the pool's ids
directly; otherwise consult the AI (the in-place pre-shuffle for the
50-candidate prompt sample reorders `candidates`, which the error
fallback then re-shuffles). -/
def curatePracticeSet (hasKey : Bool) (coinsA coinsB : Nat → Bool)
    (aiSelected : Option (List String)) (allQuestions : List Question)
    (count : Nat) (subject : String) : List String :=
  if hasKey = false then
    ((shuffleJS coinsA (allQuestions.filter
        (fun q => subject = "All" || q.subject.val = subject))).take count).map
      (fun q => q.id)
  else
    let candidates := candidatePool allQuestions subject
    if candidates.length ≤ count then candidates.map (fun q => q.id)
    else
      let shuffled := shuffleJS coinsA candidates
      match aiSelected with
      | some ids =>
          if ids.length = 0 then
            ((shuffleJS coinsB shuffled).take count).map (fun q => q.id)
          else ids
      | none => ((shuffleJS coinsB shuffled).take count).map (fun q => q.id)

/-! ## Persisted-session store (`src/services/storageService.ts`) -/

/-- The persisted snapshot `SavedSession`. -/
structure SavedSession where
  session : QuizSession
  attempts : List Attempt
  currentIndex : Nat
  savedAt : Nat
deriving DecidableEq, Repr

/-- The active-session storage slot as `loadActiveSession` can observe
it: absent (`getItem` returns `null`), present but unparseable
(`JSON.parse` throws), or a parsed snapshot. -/
inductive StoredCell where
  | empty
  | corrupt
  | valid (s : SavedSession)
deriving DecidableEq, Repr

/-- `loadActiveSession`, returning the result and the slot's state
afterwards.  An absent entry yields `null`; a parse error is caught and
yields `null` leaving the entry in place; a parsed snapshot is expired
when `(Date.now() - parsed.savedAt) / (1000 * 60 * 60) > 24` — with
exact real division this is `now - savedAt > 86400000` — in which case
the entry is removed (`clearActiveSession`) and `null` returned;
otherwise the snapshot is returned. -/
def loadActiveSession (cell : StoredCell) (now : Nat) :
    Option SavedSession × StoredCell :=
  match cell with
  | .empty => (none, .empty)
  | .corrupt => (none, .corrupt)
  | .valid s =>
      if ((now : Int) - (s.savedAt : Int)) > 86400000 then (none, .empty)
      else (some s, .valid s)

/-! ## Test fixtures (concrete values used by witnesses and counterexamples) -/

/-- A concrete bank question with id `toString n`. -/
def mkQ (n : Nat) : Question :=
  { id := toString n
    text := "question " ++ toString n
    options := ["a", "b", "c", "d"]
    correctAnswerIndex := 0
    explanation := "because"
    subject := .POLITY
    difficulty := .EASY
    monthYear := none
    tags := []
    documentId := none }

/-- A concrete attempt on question id `id` with the given correctness. -/
def mkA (id : String) (c : Bool) : Attempt :=
  { questionId := id
    userAnswerIndex := 0
    isCorrect := c
    timeTaken := 1
    timestamp := 0 }

/-- A coin stream from a finite list of coins (`false` beyond the end). -/
def coinsOf (bs : List Bool) : Nat → Bool :=
  fun k => bs.getD k false

/-- All `2 ^ 3` coin prefixes of length 3: shuffling a 3-element list
consumes at most 3 coins, so the shuffle outcome is determined by such a
prefix, and under independent fair draws all 8 prefixes are equally
likely. -/
def allCoins3 : List (List Bool) :=
  [[false, false, false], [false, false, true],
   [false, true, false], [false, true, true],
   [true, false, false], [true, false, true],
   [true, true, false], [true, true, true]]

/-- A three-question bank with no attempt history. -/
def bank3 : AppState :=
  { questions := [mkQ 1, mkQ 2, mkQ 3], attempts := [] }

/-- A twelve-question bank in which exactly questions 4, 8 and 11 carry
one incorrect attempt each. -/
def st12 : AppState :=
  { questions := (List.range 12).map (fun n => mkQ (n + 1))
    attempts := [mkA "4" false, mkA "8" false, mkA "11" false] }

/-- Two attempts that reference question ids absent from the bank. -/
def ghostAtts : List Attempt :=
  [mkA "ghost1" true, mkA "ghost2" false]

/-- Six attempts, the first five incorrect and the sixth correct. -/
def atts6 : List Attempt :=
  [mkA "1" false, mkA "2" false, mkA "3" false,
   mkA "4" false, mkA "5" false, mkA "6" true]

/-- A one-question practice session. -/
def sQ1 : QuizSession :=
  { id := "s1"
    mode := .STANDARD
    questions := [mkQ 1]
    currentQuestionIndex := 0
    attempts := []
    startTime := 0
    timeLimit := none
    isComplete := false }

/-- A runner state on `sQ1` holding a prior attempt for question 1 and a
fresh selection for the same question. -/
def rs1 : RunnerState :=
  { currentIndex := 0
    selectedOption := some 2
    isChecked := false
    attempts := [mkA "1" false]
    startTime := 0
    timeLeft := none }

/-- An EXAM session with a 5-second time limit (the spec's simulated
example). -/
def examSession5 : QuizSession :=
  { id := "exam"
    mode := .EXAM
    questions := [mkQ 1]
    currentQuestionIndex := 0
    attempts := []
    startTime := 0
    timeLimit := some 5
    isComplete := false }

/-- A concrete saved snapshot for the storage claims. -/
def savedS (t : Nat) : SavedSession :=
  { session := sQ1, attempts := [], currentIndex := 0, savedAt := t }

/-- A raw AI-response item whose correct-answer index 5 is out of bounds
for its two options. -/
def rawOOB : RawMCQ :=
  { text := some "Which one?"
    options := some ["a", "b"]
    correctAnswerIndex := some 5
    explanation := some "e"
    subject := some "Polity"
    difficulty := some "Easy"
    tags := some [] }

/-! ## General lemmas -/

/-- Counting a predicate and its negation partitions a list's length. -/
theorem countP_total (p : α → Bool) (l : List α) :
    l.countP p + l.countP (fun a => !p a) = l.length := by
  induction l with
  | nil => simp
  | cons x xs ih =>
      cases h : p x <;> simp [List.countP_cons, h] <;> omega

/-! ## Claim theorems -/

/-- C10: the dashboard's `Unseen` count equals
`max 0 (totalQuestions - number of distinct attempted question ids)` and
is therefore never negative, for every bank and history — in particular
it is `0` whenever the distinct attempted ids outnumber the bank. -/
theorem unseen_count_clamped (questions : List Question) (attempts : List Attempt) :
    unattemptedCount questions attempts
      = max 0 ((questions.length : Int) - ((uniqueAttemptedIds attempts).length : Int))
    ∧ 0 ≤ unattemptedCount questions attempts
    ∧ (questions.length < (uniqueAttemptedIds attempts).length →
        unattemptedCount questions attempts = 0) := by
  refine ⟨rfl, le_max_left _ _, fun h => ?_⟩
  unfold unattemptedCount
  rw [max_eq_left]
  omega

/-- Witness for C10 at a concrete input: one bank question, two attempts
on ids that were deleted from the bank — the `Unseen` count clamps to 0. -/
theorem unseen_count_clamped_witness :
    unattemptedCount [mkQ 1] ghostAtts = 0 :=
  (unseen_count_clamped [mkQ 1] ghostAtts).2.2 (by decide)

/-- C8: `loadActiveSession` returns a parsed snapshot exactly when its
`savedAt` is at most 24 hours (86 400 000 ms) in the past; an older
snapshot is removed from the store and `null` is returned, silently, the
same result as when no snapshot is stored at all. -/
theorem load_active_session_expiry (s : SavedSession) (now : Nat) :
    (((now : Int) - (s.savedAt : Int) ≤ 86400000) →
        loadActiveSession (.valid s) now = (some s, .valid s))
    ∧ (((now : Int) - (s.savedAt : Int) > 86400000) →
        loadActiveSession (.valid s) now = (none, .empty))
    ∧ loadActiveSession .empty now = (none, .empty) := by
  refine ⟨fun h => ?_, fun h => ?_, rfl⟩
  · simp only [loadActiveSession]
    rw [if_neg (by omega)]
  · simp only [loadActiveSession]
    rw [if_pos h]

/-- Witness for C8 at concrete inputs: a snapshot saved at time 0 is
still returned 86 400 000 ms later, is discarded 86 400 001 ms later,
and an absent snapshot loads as `null`. -/
theorem load_active_session_expiry_witness :
    loadActiveSession (.valid (savedS 0)) 86400000 = (some (savedS 0), .valid (savedS 0))
    ∧ loadActiveSession (.valid (savedS 0)) 86400001 = (none, .empty)
    ∧ loadActiveSession .empty 86400001 = (none, .empty) :=
  ⟨(load_active_session_expiry (savedS 0) 86400000).1 (by decide),
   (load_active_session_expiry (savedS 0) 86400001).2.1 (by decide),
   (load_active_session_expiry (savedS 0) 86400001).2.2⟩

/-- C9: with an API key configured, whenever the subject-filtered
candidate pool holds at most `count` questions, `curatePracticeSet`
returns exactly the pool's ids in bank order, for every coin stream and
every AI response — it is deterministic, consults no randomness, and
never reaches the AI call. -/
theorem curate_small_pool (coinsA coinsB : Nat → Bool) (ai : Option (List String))
    (allQuestions : List Question) (count : Nat) (subject : String)
    (h : (candidatePool allQuestions subject).length ≤ count) :
    curatePracticeSet true coinsA coinsB ai allQuestions count subject
      = (candidatePool allQuestions subject).map (fun q => q.id) := by
  unfold curatePracticeSet
  rw [if_neg (by simp)]
  rw [if_pos h]

/-- Witness for C9 at a concrete input: a two-question Polity pool with
`count = 5` returns both ids in bank order even though an AI answer and
coin streams are available. -/
theorem curate_small_pool_witness :
    curatePracticeSet true (coinsOf [true]) (coinsOf [true]) (some ["zz"])
        [mkQ 1, mkQ 2] 5 "Polity" = ["1", "2"] :=
  (curate_small_pool (coinsOf [true]) (coinsOf [true]) (some ["zz"])
      [mkQ 1, mkQ 2] 5 "Polity" (by decide)).trans (by decide)

/-- C6 (code bug): `parseMCQsFromText` does not clamp or validate the
correct-answer index against the option count — a response item with two
options and index 5 passes the `typeof` check and the
`options.length >= 2` filter unchanged, so the returned question
violates `0 <= correctAnswerIndex < options.length`. -/
theorem parse_keeps_out_of_bounds_index :
    (parseMCQsFromText "January 2026" [rawOOB]).map
        (fun q => (q.correctAnswerIndex, (q.options.length : Int))) = [(5, 2)]
    ∧ ¬ (∀ q ∈ parseMCQsFromText "January 2026" [rawOOB],
          0 ≤ q.correctAnswerIndex ∧ q.correctAnswerIndex < (q.options.length : Int)) := by
  constructor
  · decide
  · decide

/-- C7 (code bug): the STANDARD builder's shuffle
`sort(() => Math.random() - 0.5)` is not a uniform permutation.  Under
the insertion-sort model of `Array.prototype.sort`, shuffling the
three-question bank consumes at most 3 coins, so the outcome
distribution is determined by the 8 equally likely coin prefixes of
length 3; a uniform shuffle would give each of the 6 permutations
probability 8/6 of the prefixes, which is not an integer — and indeed
the reversed order arises from 2 prefixes while the original order
arises from only 1. -/
theorem standard_shuffle_biased :
    (allCoins3.countP (fun bs =>
        (handleStartPractice .STANDARD bank3 (coinsOf bs) "s" 0).map
            QuizSession.questions = some [mkQ 3, mkQ 2, mkQ 1])) = 2
    ∧ (allCoins3.countP (fun bs =>
        (handleStartPractice .STANDARD bank3 (coinsOf bs) "s" 0).map
            QuizSession.questions = some [mkQ 1, mkQ 2, mkQ 3])) = 1
    ∧ allCoins3.length = 8 := by
  refine ⟨by decide, by decide, by decide⟩

/-- C4 counterexample: with a one-question bank and a history of
attempts on two question ids no longer in the bank, the dashboard
classifies both ghost ids as mastered/needs-review while `Unseen`
clamps at 0, so the three pie counts sum to 2, not to the bank size 1. -/
theorem pie_sum_counterexample :
    (masteredCount ghostAtts : Int) + (needsReviewCount ghostAtts : Int)
        + unattemptedCount [mkQ 1] ghostAtts = 2
    ∧ (([mkQ 1] : List Question).length : Int) = 1
    ∧ ¬ ((masteredCount ghostAtts : Int) + (needsReviewCount ghostAtts : Int)
          + unattemptedCount [mkQ 1] ghostAtts
        = (([mkQ 1] : List Question).length : Int)) := by
  refine ⟨by decide, by decide, by decide⟩

/-- C4 amended: for every bank and history the three dashboard pie
counts (mastered, needs review, unseen) sum to
`max totalQuestions (number of distinct attempted question ids)` — which
equals `totalQuestions` exactly when the distinct attempted ids do not
outnumber the bank, in particular whenever every attempt references a
question still in the bank. -/
theorem pie_sum_is_max (questions : List Question) (attempts : List Attempt) :
    (masteredCount attempts : Int) + (needsReviewCount attempts : Int)
        + unattemptedCount questions attempts
      = max (questions.length : Int) (((uniqueAttemptedIds attempts).length : Int)) := by
  have h := countP_total (fun id => lastAttemptCorrect attempts id) (uniqueAttemptedIds attempts)
  unfold masteredCount needsReviewCount unattemptedCount
  rw [max_def, max_def]
  split_ifs <;> omega

/-- A two-valued weight comparator `(a, b) => bW - aW` for a predicate. -/
def weightCmp (p : α → Bool) (a b : α) : Int :=
  (if p b then 1 else 0) - (if p a then 1 else 0)

/-- The ADAPTIVE comparator is the weight comparator of `missedBy`. -/
theorem adaptiveCmp_eq_weightCmp (attempts : List Attempt) :
    adaptiveCmp attempts = weightCmp (missedBy attempts) := rfl

/-- Inserting a weight-1 element into a sorted block `A ++ B` (all of
`A` weight 1, all of `B` weight 0) lands it between the blocks. -/
theorem insertCmp_weight_pos (p : α → Bool) (x : α) (hx : p x = true) :
    ∀ (A B : List α), (∀ y ∈ A, p y = true) → (∀ y ∈ B, p y = false) →
      insertCmp (weightCmp p) x (A ++ B) = A ++ x :: B := by
  intro A
  induction A with
  | nil =>
      intro B hA hB
      cases B with
      | nil => simp [insertCmp]
      | cons b bs =>
          have hb := hB b (by simp)
          simp [insertCmp, weightCmp, hx, hb]
  | cons a as ih =>
      intro B hA hB
      have ha := hA a (by simp)
      simp only [List.cons_append, insertCmp, weightCmp, ha, hx, List.append_eq]
      rw [if_neg (by omega)]
      rw [ih B (fun y hy => hA y (by simp [hy])) hB]

/-- Inserting a weight-0 element never passes in front of anything. -/
theorem insertCmp_weight_neg (p : α → Bool) (x : α) (hx : p x = false) :
    ∀ (l : List α), insertCmp (weightCmp p) x l = l ++ [x] := by
  intro l
  induction l with
  | nil => simp [insertCmp]
  | cons y ys ih =>
      simp only [insertCmp, weightCmp, hx, List.cons_append]
      rw [if_neg (by cases h : p y <;> simp [h]), ih]

/-- Folding the weight-comparator insertion over `l`, starting from a
partitioned accumulator, yields the stable partition of the
accumulator's blocks extended by `l`'s elements in order. -/
theorem foldl_insertCmp_weight (p : α → Bool) :
    ∀ (l A B : List α), (∀ y ∈ A, p y = true) → (∀ y ∈ B, p y = false) →
      l.foldl (fun acc x => insertCmp (weightCmp p) x acc) (A ++ B)
        = (A ++ l.filter p) ++ (B ++ l.filter (fun a => !p a)) := by
  intro l
  induction l with
  | nil => intro A B hA hB; simp
  | cons x xs ih =>
      intro A B hA hB
      cases hx : p x with
      | true =>
          have step : insertCmp (weightCmp p) x (A ++ B) = (A ++ [x]) ++ B := by
            rw [insertCmp_weight_pos p x hx A B hA hB]; simp
          simp only [List.foldl_cons, step]
          rw [ih (A ++ [x]) B
            (by intro y hy; rcases List.mem_append.mp hy with h | h
                · exact hA y h
                · simp at h; subst h; exact hx) hB]
          simp [List.filter_cons, hx]
      | false =>
          have step : insertCmp (weightCmp p) x (A ++ B) = A ++ (B ++ [x]) := by
            rw [insertCmp_weight_neg p x hx (A ++ B)]; simp
          simp only [List.foldl_cons, step]
          rw [ih A (B ++ [x]) hA
            (by intro y hy; rcases List.mem_append.mp hy with h | h
                · exact hB y h
                · simp at h; subst h; exact hx)]
          simp [List.filter_cons, hx]

/-- `sortJS` with a two-valued weight comparator is the stable
partition: weight-1 elements first, each block in original order. -/
theorem sortJS_weightCmp (p : α → Bool) (l : List α) :
    sortJS (weightCmp p) l = l.filter p ++ l.filter (fun a => !p a) := by
  have h := foldl_insertCmp_weight p l [] [] (by simp) (by simp)
  simpa [sortJS] using h

/-- C2: building an ADAPTIVE session stably partitions the bank —
questions with at least one prior incorrect attempt first, bank order
preserved inside each block — and truncates to 10; and when exactly 3
questions of a 12-question bank carry an incorrect attempt, the
resulting 10-question session begins with those 3 questions in bank
order. -/
theorem adaptive_build_stable_partition (state : AppState) (coins : Nat → Bool)
    (sid : String) (now : Nat) (hne : state.questions ≠ []) :
    ((handleStartPractice .ADAPTIVE state coins sid now).map QuizSession.questions
      = some ((state.questions.filter (missedBy state.attempts)
          ++ state.questions.filter (fun q => !missedBy state.attempts q)).take 10))
    ∧ ((state.questions.filter (missedBy state.attempts)).length = 3 →
        state.questions.length = 12 →
        (handleStartPractice .ADAPTIVE state coins sid now).map
            (fun s => (s.questions.length, s.questions.take 3))
          = some (10, state.questions.filter (missedBy state.attempts))) := by
  have hlen : state.questions.length ≠ 0 := by
    have := List.length_pos.mpr hne
    omega
  have hmain : handleStartPractice .ADAPTIVE state coins sid now
      = some {
          id := sid
          mode := Mode.ADAPTIVE
          questions := (state.questions.filter (missedBy state.attempts)
            ++ state.questions.filter (fun q => !missedBy state.attempts q)).take 10
          currentQuestionIndex := 0
          attempts := []
          startTime := now
          timeLimit := none
          isComplete := false } := by
    unfold handleStartPractice
    rw [if_neg hlen]
    rw [adaptiveCmp_eq_weightCmp, sortJS_weightCmp]
    rfl
  constructor
  · rw [hmain]; rfl
  · intro h3 h12
    rw [hmain]
    have hsplit := countP_total (missedBy state.attempts) state.questions
    rw [List.countP_eq_length_filter, List.countP_eq_length_filter] at hsplit
    set A := state.questions.filter (missedBy state.attempts) with hA
    set B := state.questions.filter (fun q => !missedBy state.attempts q) with hB
    have hBlen : B.length = 9 := by omega
    have htake : (A ++ B).take 10 = A ++ B.take 7 := by
      rw [List.take_append_eq_append_take]
      congr 1
      · exact List.take_of_length_le (by omega)
      · congr 1; omega
    simp only [Option.map_some']
    congr 1
    rw [htake]
    simp only [Prod.mk.injEq]
    constructor
    · simp [List.length_take]; omega
    · rw [List.take_append_eq_append_take]
      rw [List.take_of_length_le (le_of_eq h3)]
      simp [h3]

/-- Witness for C2 at the spec's example: a 12-question bank whose
questions 4, 8 and 11 each carry one incorrect attempt yields a
10-question ADAPTIVE session beginning with questions 4, 8, 11. -/
theorem adaptive_build_stable_partition_witness :
    (handleStartPractice .ADAPTIVE st12 (coinsOf []) "s" 0).map
        (fun s => (s.questions.length, s.questions.take 3))
      = some (10, st12.questions.filter (missedBy st12.attempts)) :=
  (adaptive_build_stable_partition st12 (coinsOf []) "s" 0 (by decide)).2
    (by decide) (by decide)

/-- The ids of a session's questions. -/
def sessionIds (session : QuizSession) : List String :=
  session.questions.map (fun q => q.id)

/-- The runner's attempts invariant: pairwise-distinct question ids, all
drawn from the session's questions. -/
def attemptsOK (session : QuizSession) (atts : List Attempt) : Prop :=
  (atts.map (fun a => a.questionId)).Nodup
  ∧ ∀ a ∈ atts, a.questionId ∈ sessionIds session

/-- `handleCheck` preserves the attempts invariant: the recorded attempt
replaces any prior attempt with the same question id. -/
theorem attemptsOK_handleCheck (session : QuizSession) (s : RunnerState) (now : Nat)
    (h : attemptsOK session s.attempts) :
    attemptsOK session (handleCheck session s now).attempts := by
  obtain ⟨hnd, hmem⟩ := h
  cases hsel : s.selectedOption with
  | none => simp only [handleCheck, hsel]; exact ⟨hnd, hmem⟩
  | some sel =>
      by_cases hidx : s.currentIndex < session.questions.length
      · simp only [handleCheck, hsel]
        rw [dif_pos hidx]
        set q := session.questions.get ⟨s.currentIndex, hidx⟩ with hq
        constructor
        · rw [List.map_append]
          rw [List.nodup_append]
          refine ⟨?_, by simp, ?_⟩
          · exact hnd.sublist ((List.filter_sublist _).map _)
          · intro x hx
            simp only [List.mem_map] at hx
            obtain ⟨a, ha, rfl⟩ := hx
            rw [List.mem_filter] at ha
            have hne : a.questionId ≠ q.id := by simpa using ha.2
            simp [hne]
        · intro a ha
          rcases List.mem_append.mp ha with hf | hnew
          · exact hmem a (List.mem_of_mem_filter hf)
          · simp only [List.mem_singleton] at hnew
            subst hnew
            exact List.mem_map.mpr ⟨q, List.get_mem _ _ _, rfl⟩
      · simp only [handleCheck, hsel]
        rw [dif_neg hidx]
        exact ⟨hnd, hmem⟩

/-- Every runner step preserves the attempts invariant, both for the
running state and for a delivered attempt list. -/
theorem attemptsOK_step (session : QuizSession) (s : RunnerState) (e : Event)
    (h : attemptsOK session s.attempts) :
    attemptsOK session (stepRunner session s e).attemptList := by
  cases e with
  | select i =>
      show attemptsOK session (handleOptionSelect session s i).attempts
      unfold handleOptionSelect
      split <;> exact h
  | check now =>
      exact attemptsOK_handleCheck session s now h
  | next now =>
      show attemptsOK session (handleNext session s now).attemptList
      unfold handleNext
      split <;> exact h
  | tick =>
      show attemptsOK session (tickSecond s).attemptList
      cases ht : s.timeLeft with
      | none => simp only [tickSecond, ht]; exact h
      | some t =>
          simp only [tickSecond, ht]
          split <;> exact h

/-- Running any event list preserves the attempts invariant. -/
theorem attemptsOK_runEvents (session : QuizSession) :
    ∀ (events : List Event) (s : RunnerState), attemptsOK session s.attempts →
      attemptsOK session (runEvents session s events).attemptList := by
  intro events
  induction events with
  | nil => intro s h; exact h
  | cons e es ih =>
      intro s h
      have hstep := attemptsOK_step session s e h
      unfold runEvents
      cases hout : stepRunner session s e with
      | running s1 =>
          rw [hout] at hstep
          exact ih s1 hstep
      | completed atts =>
          rw [hout] at hstep
          exact hstep

/-- A list of attempts with pairwise-distinct ids drawn from the session
has at most as many entries as the session has distinct question ids. -/
theorem length_le_of_attemptsOK (session : QuizSession) (atts : List Attempt)
    (h : attemptsOK session atts) :
    atts.length ≤ (sessionIds session).dedup.length := by
  obtain ⟨hnd, hmem⟩ := h
  have h1 : (atts.map (fun a => a.questionId)).toFinset.card
      = (atts.map (fun a => a.questionId)).length :=
    List.toFinset_card_of_nodup hnd
  have h2 : (atts.map (fun a => a.questionId)).toFinset ⊆ (sessionIds session).toFinset := by
    intro x hx
    rw [List.mem_toFinset] at hx ⊢
    obtain ⟨a, ha, rfl⟩ := List.mem_map.mp hx
    exact hmem a ha
  have h3 := Finset.card_le_card h2
  rw [List.card_toFinset, List.card_toFinset] at h3
  rw [hnd.dedup, List.length_map] at h3
  exact h3

/-- C1: checking an answer replaces any prior attempt for the current
question — afterwards exactly one attempt carries that question's id —
and consequently, along every event trace of a session, the attempt list
holds pairwise-distinct question ids and never grows beyond the number
of distinct question ids in the session. -/
theorem check_replaces_prior_attempt :
    (∀ (session : QuizSession) (s : RunnerState) (now sel : Nat) (q : Question),
        s.selectedOption = some sel →
        session.questions.get? s.currentIndex = some q →
        ((handleCheck session s now).attempts.countP
          (fun a => a.questionId = q.id)) = 1)
    ∧ (∀ (session : QuizSession) (now : Nat) (events : List Event),
        ((runEvents session (initRunner session now) events).attemptList.map
            (fun a => a.questionId)).Nodup
        ∧ (runEvents session (initRunner session now) events).attemptList.length
            ≤ (sessionIds session).dedup.length) := by
  constructor
  · intro session s now sel q hsel hq
    obtain ⟨hidx, hget⟩ := List.get?_eq_some.mp hq
    simp only [handleCheck, hsel]
    rw [dif_pos hidx]
    simp only [hget]
    rw [List.countP_append]
    have hzero : (s.attempts.filter (fun a => a.questionId ≠ q.id)).countP
        (fun a => a.questionId = q.id) = 0 := by
      rw [List.countP_eq_zero]
      intro a ha
      rw [List.mem_filter] at ha
      simpa using ha.2
    rw [hzero]
    simp
  · intro session now events
    have hinit : attemptsOK session (initRunner session now).attempts := by
      exact ⟨by simp [initRunner], by simp [initRunner]⟩
    have hok := attemptsOK_runEvents session events (initRunner session now) hinit
    exact ⟨hok.1, length_le_of_attemptsOK session _ hok⟩

/-- Witness for C1 at a concrete input: a state already holding an
attempt for question 1 re-checks question 1 — exactly one attempt for
that id remains. -/
theorem check_replaces_prior_attempt_witness :
    ((handleCheck sQ1 rs1 7).attempts.countP
      (fun a => a.questionId = (mkQ 1).id)) = 1 :=
  check_replaces_prior_attempt.1 sQ1 rs1 7 2 (mkQ 1) rfl rfl

/-- C3: once the countdown reaches zero the runner completes
unconditionally — for any state whose remaining time is about to reach
(or already at) zero, a tick delivers exactly the attempts recorded so
far, whatever the checked/selected sub-state — and the EXAM session with
`timeLimit = 5` and no answers completes after 5 elapsed seconds with an
empty attempt list. -/
theorem timer_zero_completes (session : QuizSession) (s : RunnerState) (t : Nat)
    (ht : s.timeLeft = some t) (h1 : t ≤ 1) :
    stepRunner session s .tick = .completed s.attempts
    ∧ runEvents examSession5 (initRunner examSession5 0)
        [.tick, .tick, .tick, .tick, .tick] = .completed [] := by
  constructor
  · show tickSecond s = .completed s.attempts
    simp only [tickSecond, ht]
    rw [if_pos (by omega)]
  · rfl

/-- Witness for C3 at a concrete input: a mid-question state (question
checked, one attempt recorded) with one second left completes on the
tick, delivering exactly that attempt. -/
theorem timer_zero_completes_witness :
    stepRunner examSession5
        { currentIndex := 0
          selectedOption := some 1
          isChecked := true
          attempts := [mkA "1" false]
          startTime := 0
          timeLeft := some 1 } .tick
      = .completed [mkA "1" false] :=
  (timer_zero_completes examSession5
    { currentIndex := 0
      selectedOption := some 1
      isChecked := true
      attempts := [mkA "1" false]
      startTime := 0
      timeLeft := some 1 } 1 rfl (by decide)).1

/-- `trendLoop` with the end-of-history test expressed structurally:
at element `a :: rest`, `index === attempts.length - 1` holds exactly
when `rest` is empty. -/
def trendLoopR : List Attempt → Nat → Nat → Nat → List (Nat × Nat)
  | [], _, _, _ => []
  | a :: rest, idx, s, c =>
      if c + 1 = 5 ∨ rest = [] then
        (idx + 1, roundPct (s + (if a.isCorrect then 1 else 0)) (c + 1)) ::
          trendLoopR rest (idx + 1) 0 0
      else
        trendLoopR rest (idx + 1) (s + (if a.isCorrect then 1 else 0)) (c + 1)

/-- With the invariant `total = idx + remaining length`, the source's
index test `idx = total - 1` coincides with the structural end test. -/
theorem trendLoop_eq_trendLoopR :
    ∀ (l : List Attempt) (idx total s c : Nat), total = idx + l.length →
      trendLoop l idx total s c = trendLoopR l idx s c := by
  intro l
  induction l with
  | nil => intros; rfl
  | cons a rest ih =>
      intro idx total s c htot
      have hcond : (c + 1 = 5 ∨ idx = total - 1) ↔ (c + 1 = 5 ∨ rest = []) := by
        refine or_congr Iff.rfl ?_
        subst htot
        simp only [List.length_cons]
        constructor
        · intro h
          have : rest.length = 0 := by omega
          exact List.eq_nil_of_length_eq_zero this
        · intro h
          subst h
          simp
      have hrec0 : trendLoop rest (idx + 1) total 0 0 = trendLoopR rest (idx + 1) 0 0 :=
        ih (idx + 1) total 0 0 (by subst htot; simp only [List.length_cons]; omega)
      have hrec1 : trendLoop rest (idx + 1) total
            (s + (if a.isCorrect then 1 else 0)) (c + 1)
          = trendLoopR rest (idx + 1) (s + (if a.isCorrect then 1 else 0)) (c + 1) :=
        ih (idx + 1) total _ _ (by subst htot; simp only [List.length_cons]; omega)
      rw [trendLoop, trendLoopR]
      by_cases hcase : c + 1 = 5 ∨ rest = []
      · rw [if_pos (hcond.mpr hcase), if_pos hcase, hrec0]
      · rw [if_neg (fun h => hcase (hcond.mp h)), if_neg hcase, hrec1]

/-- One chunk of `trendLoopR`: starting inside a chunk with `c < 5`
elements already counted, the loop either finishes the history inside
this chunk (emitting one point over the chunk's actual size) or
completes the chunk at 5 and recurses on the rest. -/
theorem trendLoopR_chunk :
    ∀ (l : List Attempt) (idx s c : Nat), l ≠ [] → c < 5 →
      trendLoopR l idx s c =
        if l.length ≤ 5 - c then
          [(idx + l.length, roundPct (s + countCorrect l) (c + l.length))]
        else
          (idx + (5 - c), roundPct (s + countCorrect (l.take (5 - c))) 5)
            :: trendLoopR (l.drop (5 - c)) (idx + (5 - c)) 0 0 := by
  intro l
  induction l with
  | nil => intro idx s c h _; exact absurd rfl h
  | cons a rest ih =>
      intro idx s c _ hc
      rw [trendLoopR]
      set b := (if a.isCorrect then 1 else 0) with hb
      have hsum : ∀ t : List Attempt,
          s + b + countCorrect t = s + countCorrect (a :: t) := by
        intro t
        rw [hb]
        cases ha : a.isCorrect <;>
          simp [countCorrect, List.countP_cons, ha] <;>
          omega
      have h01 : countCorrect [a] = b := by
        rw [hb]
        cases ha : a.isCorrect <;> simp [countCorrect, List.countP_cons, ha]
      by_cases hr : rest = []
      · subst hr
        rw [if_pos (Or.inr rfl)]
        rw [show trendLoopR ([] : List Attempt) (idx + 1) 0 0 = [] from rfl]
        rw [if_pos (show ([a] : List Attempt).length ≤ 5 - c by simp; omega)]
        simp [h01]
      · have hrlen : 0 < rest.length := List.length_pos.mpr hr
        by_cases h5 : c + 1 = 5
        · rw [if_pos (Or.inl h5)]
          rw [if_neg (show ¬((a :: rest).length ≤ 5 - c) by
            simp only [List.length_cons]; omega)]
          have h1 : 5 - c = 1 := by omega
          rw [h1]
          have htk : (a :: rest).take 1 = [a] := rfl
          have hdp : (a :: rest).drop 1 = rest := rfl
          rw [htk, hdp, h01, h5]
        · rw [if_neg (show ¬(c + 1 = 5 ∨ rest = []) from fun h => h.elim h5 hr)]
          rw [ih (idx + 1) (s + b) (c + 1) hr (by omega)]
          by_cases hlen : rest.length ≤ 5 - (c + 1)
          · rw [if_pos hlen]
            rw [if_pos (show (a :: rest).length ≤ 5 - c by
              simp only [List.length_cons]; omega)]
            have e1 : idx + 1 + rest.length = idx + (a :: rest).length := by
              simp only [List.length_cons]; omega
            have e2 : (c + 1) + rest.length = c + (a :: rest).length := by
              simp only [List.length_cons]; omega
            rw [hsum rest, e1, e2]
          · rw [if_neg hlen]
            rw [if_neg (show ¬((a :: rest).length ≤ 5 - c) by
              simp only [List.length_cons]; omega)]
            have h51 : 5 - c = (5 - (c + 1)) + 1 := by omega
            have htk : (a :: rest).take (5 - c) = a :: rest.take (5 - (c + 1)) := by
              rw [h51, List.take_succ_cons]
            have hdp : (a :: rest).drop (5 - c) = rest.drop (5 - (c + 1)) := by
              rw [h51, List.drop_succ_cons]
            have hidx : idx + 1 + (5 - (c + 1)) = idx + (5 - c) := by omega
            rw [htk, hdp, hidx, hsum (rest.take (5 - (c + 1)))]

/-- `trendLoopR`, started at a chunk boundary, computes the amended
chunked trend. -/
theorem trendLoopR_eq_specAmend :
    ∀ (n : Nat) (l : List Attempt), l.length ≤ n → ∀ idx : Nat,
      trendLoopR l idx 0 0 = specTrendAmendAux idx l := by
  intro n
  induction n with
  | zero =>
      intro l hl idx
      have hnil : l = [] := List.eq_nil_of_length_eq_zero (by omega)
      subst hnil; rfl
  | succ n ihn =>
      intro l hl idx
      rcases l with _ | ⟨a1, _ | ⟨a2, _ | ⟨a3, _ | ⟨a4, _ | ⟨a5, rest⟩⟩⟩⟩⟩
      · rfl
      · rw [trendLoopR_chunk _ idx 0 0 (by simp) (by omega)]
        rw [if_pos (by simp)]
        simp [specTrendAmendAux]
      · rw [trendLoopR_chunk _ idx 0 0 (by simp) (by omega)]
        rw [if_pos (by simp)]
        simp [specTrendAmendAux]
      · rw [trendLoopR_chunk _ idx 0 0 (by simp) (by omega)]
        rw [if_pos (by simp)]
        simp [specTrendAmendAux]
      · rw [trendLoopR_chunk _ idx 0 0 (by simp) (by omega)]
        rw [if_pos (by simp)]
        simp [specTrendAmendAux]
      · rw [trendLoopR_chunk _ idx 0 0 (by simp) (by omega)]
        by_cases hr : rest = []
        · subst hr
          rw [if_pos (by simp)]
          simp [specTrendAmendAux]
        · have hrlen : 0 < rest.length := List.length_pos.mpr hr
          rw [if_neg (show ¬((a1 :: a2 :: a3 :: a4 :: a5 :: rest).length ≤ 5 - 0) by
            simp only [List.length_cons]; omega)]
          have htk : (a1 :: a2 :: a3 :: a4 :: a5 :: rest).take (5 - 0)
              = [a1, a2, a3, a4, a5] := rfl
          have hdp : (a1 :: a2 :: a3 :: a4 :: a5 :: rest).drop (5 - 0) = rest := rfl
          rw [htk, hdp]
          have hlen2 : rest.length ≤ n := by
            simp only [List.length_cons] at hl; omega
          have h50 : 5 - 0 = 5 := rfl
          rw [h50]
          rw [ihn rest hlen2 (idx + 5)]
          rw [specTrendAmendAux]
          simp

/-- C5 amended: the dashboard's accuracy trend partitions the history
into chunks of 5 (only the final chunk may be shorter) and maps each
chunk to `(ordinal of its last attempt,
round(100 * correctInChunk / actualChunkLength))` — the divisor is the
chunk's own length, not always 5. -/
theorem trend_data_amended (attempts : List Attempt) :
    trendData attempts = specTrendAmend attempts := by
  unfold trendData specTrendAmend
  have h := trendLoop_eq_trendLoopR attempts 0 attempts.length 0 0 (by omega)
  rw [h]
  exact trendLoopR_eq_specAmend attempts.length attempts (le_refl _) 0

/-- C5 counterexample: on six attempts (five wrong, then one right) the
code's final one-attempt chunk scores `round(100 * 1 / 1) = 100`, while
the claimed fixed divisor 5 would give `round(100 * 1 / 5) = 20` — the
claim's trend disagrees with the code's. -/
theorem trend_claim_counterexample :
    trendData atts6 = [(5, 0), (6, 100)]
    ∧ specTrendClaim atts6 = [(5, 0), (6, 20)]
    ∧ trendData atts6 ≠ specTrendClaim atts6 := by
  refine ⟨by decide, by decide, by decide⟩
